import Mathlib

/-!
Shallow embedding of the `regex-map` library: an associative container whose
keys are regular-expression patterns.  The repository has two near-duplicate
variants, `RegexMap` over text keys (src/string.rs) and `bytes::RegexMap` over
byte-sequence keys (src/bytes.rs).  Both delegate pattern compilation and
matching to the external pattern engine (`regex::RegexSet` resp.
`regex::bytes::RegexSet`), which the specification treats as an external
collaborator with a fixed contract (Compile / MatchAll / IsMatch).

The engine itself is therefore modelled from the spec: an `Engine K` supplies
a per-expression validity check and an existential per-pattern match test on
keys of type `K`.  `RegexSet` compilation succeeds iff every expression is
valid; `matches` reports the matching pattern indices in ascending order with
no duplicates; `is_match` is true iff some pattern matches.  On top of that,
the container code from src/ is translated directly: `new` collects the
expressions and values into two parallel lists and compiles the expression
list (a compile error makes construction fail with no container, modelling the
panic of `.unwrap()`); `get` maps each reported index `i` to `values[i]`
(index lookup modelled as `List.get?`, `none` standing for an out-of-bounds
panic); `contains_key` delegates to the engine's `is_match`.
-/

set_option autoImplicit false

/-- Modelled from the spec: the external pattern engine (the `regex` crate),
consumed through two capability contracts.  `isValid e` says whether the
expression `e` is syntactically valid for the engine's alphabet; `isMatchOne
e k` says whether the (compiled) expression `e` matches the key `k`, as an
existential per-pattern test (a pattern either matches a key somewhere or it
does not; positions and multiplicities are not reported). -/
structure Engine (K : Type) where
  isValid : String → Bool
  isMatchOne : String → K → Bool

/-- Modelled from the spec: scanning a list of expressions for the first one
the engine rejects.  `Compile` fails iff such an expression exists, and the
resulting error names the offending pattern. -/
def firstInvalid (valid : String → Bool) : List String → Option String
  | [] => none
  | e :: rest => if valid e then firstInvalid valid rest else some e

namespace RMStr

/-- Embedding of `regex::RegexSet` as used by src/string.rs: the compiled
multi-pattern matcher retains the ordered list of pattern expressions. -/
structure RegexSet where
  patterns : List String
  deriving DecidableEq

/-- Modelled from the spec: `Compile(patterns) -> CompiledMatcher | CompileError`.
Fails iff some expression is invalid, and the error carries the first invalid
pattern expression. -/
def RegexSet.new (E : Engine String) (exprs : List String) : Except String RegexSet :=
  match firstInvalid E.isValid exprs with
  | some e => Except.error e
  | none => Except.ok ⟨exprs⟩

/-- Modelled from the spec: `MatchAll(matcher, key)` returns every pattern
index whose expression matches the key, in ascending index order, with no
duplicates.  `matchesFrom n l key` enumerates the indices of `l` starting at
`n`. -/
def matchesFrom (E : Engine String) (key : String) : Nat → List String → List Nat
  | _, [] => []
  | n, e :: rest =>
    if E.isMatchOne e key then n :: matchesFrom E key (n + 1) rest
    else matchesFrom E key (n + 1) rest

/-- Modelled from the spec: the full `MatchAll` index set of a compiled set. -/
def RegexSet.matches (E : Engine String) (s : RegexSet) (key : String) : List Nat :=
  matchesFrom E key 0 s.patterns

/-- Modelled from the spec: `IsMatch(matcher, key)` — true iff some pattern
matches, computable without materialising the full index set. -/
def RegexSet.is_match (E : Engine String) (s : RegexSet) (key : String) : Bool :=
  s.patterns.any fun e => E.isMatchOne e key

/-- Embedding of `RegexMap<V>` from src/string.rs: a compiled set and the
parallel list of values. -/
structure RegexMap (V : Type) where
  set : RegexSet
  values : List V
  deriving DecidableEq

/-- Embedding of `RegexMap::new` (src/string.rs lines 28-42): the loop pushes
the expressions and the values of the supplied pairs into two parallel lists
(`items.map Prod.fst` and `items.map Prod.snd`), then compiles the expression
list.  The `.unwrap()` panic on a compile error is modelled by propagating the
error: no container is produced. -/
def RegexMap.new {V : Type} (E : Engine String) (items : List (String × V)) :
    Except String (RegexMap V) :=
  match RegexSet.new E (items.map Prod.fst) with
  | Except.ok set => Except.ok ⟨set, items.map Prod.snd⟩
  | Except.error err => Except.error err

/-- Embedding of `RegexMap::get` (src/string.rs lines 58-63): map each index
reported by the matcher to `self.values[i]`.  The indexing `values[i]` is
modelled as `List.get?`, with `none` standing for the out-of-bounds panic. -/
def RegexMap.get {V : Type} (E : Engine String) (m : RegexMap V) (key : String) :
    List (Option V) :=
  (m.set.matches E key).map fun i => m.values.get? i

/-- Embedding of `RegexMap::contains_key` (src/string.rs lines 66-68). -/
def RegexMap.contains_key {V : Type} (E : Engine String) (m : RegexMap V) (key : String) :
    Bool :=
  m.set.is_match E key

/-- Observable operations a caller can issue against a constructed container:
a `get` lookup or a `contains_key` membership test.  Used to state that
lookups mutate no container state. -/
inductive MapOp (K : Type) where
  | lookup (key : K)
  | member (key : K)

/-- Observable outputs of the operations: the value sequence of a `get`, or
the boolean of a `contains_key`. -/
inductive MapOut (V : Type) where
  | seq (vs : List (Option V))
  | flag (b : Bool)
  deriving DecidableEq

/-- One operation against the container.  Both `get` and `contains_key` take
the container by shared reference in src/string.rs, so the container handed
to the next operation is the same container. -/
def RegexMap.step {V : Type} (E : Engine String) (m : RegexMap V) :
    MapOp String → RegexMap V × MapOut V
  | MapOp.lookup k => (m, MapOut.seq (m.get E k))
  | MapOp.member k => (m, MapOut.flag (m.contains_key E k))

/-- Running a sequence of operations, threading the container state returned
by each operation into the next. -/
def RegexMap.runOps {V : Type} (E : Engine String) (m : RegexMap V) :
    List (MapOp String) → List (MapOut V)
  | [] => []
  | op :: rest =>
    let r := m.step E op
    r.2 :: r.1.runOps E rest

end RMStr

namespace RMBytes

/-- Embedding of `regex::bytes::RegexSet` as used by src/bytes.rs.  Keys are
arbitrary byte sequences, modelled as `List Nat`; pattern expressions are
still text. -/
structure RegexSet where
  patterns : List String
  deriving DecidableEq

/-- Modelled from the spec: `Compile` over the byte alphabet; fails iff some
expression is invalid, the error carrying the first invalid expression. -/
def RegexSet.new (E : Engine (List Nat)) (exprs : List String) : Except String RegexSet :=
  match firstInvalid E.isValid exprs with
  | some e => Except.error e
  | none => Except.ok ⟨exprs⟩

/-- Modelled from the spec: index enumeration for `MatchAll` over byte keys. -/
def matchesFrom (E : Engine (List Nat)) (key : List Nat) : Nat → List String → List Nat
  | _, [] => []
  | n, e :: rest =>
    if E.isMatchOne e key then n :: matchesFrom E key (n + 1) rest
    else matchesFrom E key (n + 1) rest

/-- Modelled from the spec: `MatchAll` for the byte variant — ascending
matching indices, no duplicates. -/
def RegexSet.matches (E : Engine (List Nat)) (s : RegexSet) (key : List Nat) : List Nat :=
  matchesFrom E key 0 s.patterns

/-- Modelled from the spec: `IsMatch` for the byte variant. -/
def RegexSet.is_match (E : Engine (List Nat)) (s : RegexSet) (key : List Nat) : Bool :=
  s.patterns.any fun e => E.isMatchOne e key

/-- Embedding of `bytes::RegexMap<V>` from src/bytes.rs. -/
structure RegexMap (V : Type) where
  set : RegexSet
  values : List V
  deriving DecidableEq

/-- Embedding of `RegexMap::new` (src/bytes.rs lines 27-41): identical to the
string variant, but the expressions compile over the byte alphabet. -/
def RegexMap.new {V : Type} (E : Engine (List Nat)) (items : List (String × V)) :
    Except String (RegexMap V) :=
  match RegexSet.new E (items.map Prod.fst) with
  | Except.ok set => Except.ok ⟨set, items.map Prod.snd⟩
  | Except.error err => Except.error err

/-- Embedding of `RegexMap::get` (src/bytes.rs lines 57-62): indices reported
by the matcher mapped to `self.values[i]`, indexing modelled as `List.get?`. -/
def RegexMap.get {V : Type} (E : Engine (List Nat)) (m : RegexMap V) (key : List Nat) :
    List (Option V) :=
  (m.set.matches E key).map fun i => m.values.get? i

/-- Embedding of `RegexMap::contains_key` (src/bytes.rs lines 65-67). -/
def RegexMap.contains_key {V : Type} (E : Engine (List Nat)) (m : RegexMap V)
    (key : List Nat) : Bool :=
  m.set.is_match E key

end RMBytes

/-! Concrete pattern engines used to exercise the theorems on concrete inputs.
They satisfy the engine contract trivially: a pattern is a literal to be found
as a contiguous run inside the key, and an expression is invalid when it
contains an unbalanced opening parenthesis character. -/

/-- Boolean test that `p` is an initial segment of `s`. -/
def startsWithL {α : Type} [BEq α] : List α → List α → Bool
  | [], _ => true
  | _ :: _, [] => false
  | a :: p, b :: s => a == b && startsWithL p s

/-- Boolean test that `p` occurs contiguously somewhere inside `s`. -/
def occursL {α : Type} [BEq α] (p : List α) : List α → Bool
  | [] => startsWithL p []
  | b :: s => startsWithL p (b :: s) || occursL p s

/-- A concrete text engine: literal substring matching, expressions invalid
when they contain an opening parenthesis. -/
def demoEngine : Engine String where
  isValid e := e.toList.all fun c => c != '('
  isMatchOne e k := occursL e.toList k.toList

/-- A concrete byte engine: the expression's characters, as byte values, must
occur contiguously inside the key. -/
def demoEngineB : Engine (List Nat) where
  isValid e := e.toList.all fun c => c != '('
  isMatchOne e k := occursL (e.toList.map Char.toNat) k

/-- Concrete (expression, value) pairs, mirroring the doctest of src/string.rs. -/
def demoItems : List (String × Nat) := [("foo", 1), ("bar", 2), ("foobar", 3)]

/-- The container `RegexMap::new` builds from `demoItems`. -/
def demoMap : RMStr.RegexMap Nat := ⟨⟨["foo", "bar", "foobar"]⟩, [1, 2, 3]⟩

/-- Concrete pairs for the byte variant, mirroring the doctest of src/bytes.rs. -/
def demoItemsB : List (String × Nat) := [("foo", 1), ("bar", 2)]

/-- The container `bytes::RegexMap::new` builds from `demoItemsB`. -/
def demoMapB : RMBytes.RegexMap Nat := ⟨⟨["foo", "bar"]⟩, [1, 2]⟩

/-- The byte sequence of the key "foo". -/
def fooKeyB : List Nat := [102, 111, 111]

/-- Pairs with a duplicated pattern expression. -/
def dupItems : List (String × Nat) := [("foo", 1), ("bar", 2), ("bar", 3)]

/-- The container `RegexMap::new` builds from `dupItems`. -/
def dupMap : RMStr.RegexMap Nat := ⟨⟨["foo", "bar", "bar"]⟩, [1, 2, 3]⟩

/-! Helper lemmas about expression validation. -/

theorem firstInvalid_eq_none_iff (valid : String → Bool) :
    ∀ l : List String, firstInvalid valid l = none ↔ l.all valid = true
  | [] => by simp [firstInvalid]
  | e :: rest => by
    by_cases h : valid e = true
    · simp [firstInvalid, h, firstInvalid_eq_none_iff valid rest]
    · simp [firstInvalid, h]

theorem firstInvalid_some_spec (valid : String → Bool) :
    ∀ (l : List String) (e : String),
      firstInvalid valid l = some e → valid e = false ∧ e ∈ l
  | [], e, h => by simp [firstInvalid] at h
  | a :: rest, e, h => by
    by_cases ha : valid a = true
    · rw [show firstInvalid valid (a :: rest) = firstInvalid valid rest by
        simp [firstInvalid, ha]] at h
      rcases firstInvalid_some_spec valid rest e h with ⟨h1, h2⟩
      exact ⟨h1, List.mem_cons_of_mem _ h2⟩
    · rw [show firstInvalid valid (a :: rest) = some a by simp [firstInvalid, ha]] at h
      injection h with he
      subst he
      exact ⟨by simpa using ha, List.mem_cons_self a rest⟩

theorem firstInvalid_of_invalid_mem (valid : String → Bool) :
    ∀ (l : List String) (e : String), e ∈ l → valid e = false →
      ∃ b, firstInvalid valid l = some b ∧ valid b = false
  | [], e, he, _ => by simp at he
  | a :: rest, e, he, hv => by
    by_cases ha : valid a = true
    · have he2 : e ∈ rest := by
        rcases List.mem_cons.mp he with rfl | h2
        · rw [hv] at ha; cases ha
        · exact h2
      rcases firstInvalid_of_invalid_mem valid rest e he2 hv with ⟨b, hb, hbv⟩
      exact ⟨b, by simp [firstInvalid, ha, hb], hbv⟩
    · exact ⟨a, by simp [firstInvalid, ha], by simpa using ha⟩

/-! Helper lemmas for the string variant. -/

theorem new_ok_str {V : Type} {E : Engine String} {items : List (String × V)}
    {m : RMStr.RegexMap V} (h : RMStr.RegexMap.new E items = Except.ok m) :
    m = ⟨⟨items.map Prod.fst⟩, items.map Prod.snd⟩ := by
  unfold RMStr.RegexMap.new RMStr.RegexSet.new at h
  cases hfi : firstInvalid E.isValid (items.map Prod.fst) with
  | none => rw [hfi] at h; simp at h; exact h.symm
  | some e => rw [hfi] at h; simp at h

theorem matchesFrom_map_get_str {V : Type} (E : Engine String) (key : String) :
    ∀ (items : List (String × V)) (pre : List V),
      (RMStr.matchesFrom E key pre.length (items.map Prod.fst)).map
          (fun i => (pre ++ items.map Prod.snd).get? i)
        = (items.filter fun it => E.isMatchOne it.1 key).map fun it => some it.2
  | [], pre => by simp [RMStr.matchesFrom]
  | (e, v) :: rest, pre => by
    have hlen : pre.length + 1 = (pre ++ [v]).length := by simp
    have happ : pre ++ v :: rest.map Prod.snd = (pre ++ [v]) ++ rest.map Prod.snd := by simp
    have hhead : (pre ++ v :: rest.map Prod.snd).get? pre.length = some v := by
      rw [List.get?_append_right (le_refl _)]
      simp
    by_cases h : E.isMatchOne e key = true
    · have hfil : List.filter (fun it => E.isMatchOne it.1 key) ((e, v) :: rest)
          = (e, v) :: List.filter (fun it => E.isMatchOne it.1 key) rest := by
        simp [List.filter_cons, h]
      simp only [List.map_cons, RMStr.matchesFrom, if_pos h, hhead, hfil]
      rw [happ, hlen, matchesFrom_map_get_str E key rest (pre ++ [v])]
    · have hfil : List.filter (fun it => E.isMatchOne it.1 key) ((e, v) :: rest)
          = List.filter (fun it => E.isMatchOne it.1 key) rest := by
        simp [List.filter_cons, h]
      simp only [List.map_cons, RMStr.matchesFrom, if_neg h, hfil]
      rw [happ, hlen, matchesFrom_map_get_str E key rest (pre ++ [v])]

theorem get_spec_str {V : Type} {E : Engine String} {items : List (String × V)}
    {m : RMStr.RegexMap V} (key : String)
    (h : RMStr.RegexMap.new E items = Except.ok m) :
    m.get E key = (items.filter fun it => E.isMatchOne it.1 key).map fun it => some it.2 := by
  rw [new_ok_str h]
  have := matchesFrom_map_get_str E key items ([] : List V)
  simpa [RMStr.RegexMap.get, RMStr.RegexSet.matches] using this

theorem matchesFrom_ge_str (E : Engine String) (key : String) :
    ∀ (l : List String) (n i : Nat), i ∈ RMStr.matchesFrom E key n l → n ≤ i
  | [], n, i, h => by simp [RMStr.matchesFrom] at h
  | e :: rest, n, i, h => by
    simp only [RMStr.matchesFrom] at h
    by_cases hm : E.isMatchOne e key = true
    · rw [if_pos hm] at h
      rcases List.mem_cons.mp h with rfl | h2
      · exact le_refl i
      · exact le_trans (Nat.le_succ n) (matchesFrom_ge_str E key rest (n + 1) i h2)
    · rw [if_neg hm] at h
      exact le_trans (Nat.le_succ n) (matchesFrom_ge_str E key rest (n + 1) i h)

theorem matchesFrom_lt_str (E : Engine String) (key : String) :
    ∀ (l : List String) (n i : Nat), i ∈ RMStr.matchesFrom E key n l → i < n + l.length
  | [], n, i, h => by simp [RMStr.matchesFrom] at h
  | e :: rest, n, i, h => by
    simp only [RMStr.matchesFrom] at h
    have hstep : i < n + 1 + rest.length → i < n + (e :: rest).length := by
      intro hx
      simpa [Nat.add_comm, Nat.add_left_comm, Nat.add_assoc] using hx
    by_cases hm : E.isMatchOne e key = true
    · rw [if_pos hm] at h
      rcases List.mem_cons.mp h with rfl | h2
      · simp [Nat.lt_succ_of_le, Nat.le_add_right]
      · exact hstep (matchesFrom_lt_str E key rest (n + 1) i h2)
    · rw [if_neg hm] at h
      exact hstep (matchesFrom_lt_str E key rest (n + 1) i h)

theorem matchesFrom_pairwise_str (E : Engine String) (key : String) :
    ∀ (l : List String) (n : Nat), (RMStr.matchesFrom E key n l).Pairwise (· < ·)
  | [], n => by simp [RMStr.matchesFrom]
  | e :: rest, n => by
    simp only [RMStr.matchesFrom]
    by_cases hm : E.isMatchOne e key = true
    · rw [if_pos hm]
      refine List.Pairwise.cons ?_ (matchesFrom_pairwise_str E key rest (n + 1))
      intro i hi
      exact lt_of_lt_of_le (Nat.lt_succ_self n) (matchesFrom_ge_str E key rest (n + 1) i hi)
    · rw [if_neg hm]
      exact matchesFrom_pairwise_str E key rest (n + 1)

theorem any_map_fst {V : Type} (p : String → Bool) :
    ∀ items : List (String × V), (items.map Prod.fst).any p = items.any fun it => p it.1
  | [] => rfl
  | a :: rest => by simp [List.any_cons, any_map_fst p rest]

theorem is_match_any_str {V : Type} {E : Engine String} {items : List (String × V)}
    {m : RMStr.RegexMap V} (key : String)
    (h : RMStr.RegexMap.new E items = Except.ok m) :
    m.contains_key E key = items.any fun it => E.isMatchOne it.1 key := by
  rw [new_ok_str h]
  simp only [RMStr.RegexMap.contains_key, RMStr.RegexSet.is_match]
  exact any_map_fst (fun e => E.isMatchOne e key) items

/-! Helper lemmas for the byte variant, mirroring the string variant. -/

theorem new_ok_byt {V : Type} {E : Engine (List Nat)} {items : List (String × V)}
    {m : RMBytes.RegexMap V} (h : RMBytes.RegexMap.new E items = Except.ok m) :
    m = ⟨⟨items.map Prod.fst⟩, items.map Prod.snd⟩ := by
  unfold RMBytes.RegexMap.new RMBytes.RegexSet.new at h
  cases hfi : firstInvalid E.isValid (items.map Prod.fst) with
  | none => rw [hfi] at h; simp at h; exact h.symm
  | some e => rw [hfi] at h; simp at h

theorem matchesFrom_map_get_byt {V : Type} (E : Engine (List Nat)) (key : List Nat) :
    ∀ (items : List (String × V)) (pre : List V),
      (RMBytes.matchesFrom E key pre.length (items.map Prod.fst)).map
          (fun i => (pre ++ items.map Prod.snd).get? i)
        = (items.filter fun it => E.isMatchOne it.1 key).map fun it => some it.2
  | [], pre => by simp [RMBytes.matchesFrom]
  | (e, v) :: rest, pre => by
    have hlen : pre.length + 1 = (pre ++ [v]).length := by simp
    have happ : pre ++ v :: rest.map Prod.snd = (pre ++ [v]) ++ rest.map Prod.snd := by simp
    have hhead : (pre ++ v :: rest.map Prod.snd).get? pre.length = some v := by
      rw [List.get?_append_right (le_refl _)]
      simp
    by_cases h : E.isMatchOne e key = true
    · have hfil : List.filter (fun it => E.isMatchOne it.1 key) ((e, v) :: rest)
          = (e, v) :: List.filter (fun it => E.isMatchOne it.1 key) rest := by
        simp [List.filter_cons, h]
      simp only [List.map_cons, RMBytes.matchesFrom, if_pos h, hhead, hfil]
      rw [happ, hlen, matchesFrom_map_get_byt E key rest (pre ++ [v])]
    · have hfil : List.filter (fun it => E.isMatchOne it.1 key) ((e, v) :: rest)
          = List.filter (fun it => E.isMatchOne it.1 key) rest := by
        simp [List.filter_cons, h]
      simp only [List.map_cons, RMBytes.matchesFrom, if_neg h, hfil]
      rw [happ, hlen, matchesFrom_map_get_byt E key rest (pre ++ [v])]

theorem get_spec_byt {V : Type} {E : Engine (List Nat)} {items : List (String × V)}
    {m : RMBytes.RegexMap V} (key : List Nat)
    (h : RMBytes.RegexMap.new E items = Except.ok m) :
    m.get E key = (items.filter fun it => E.isMatchOne it.1 key).map fun it => some it.2 := by
  rw [new_ok_byt h]
  have := matchesFrom_map_get_byt E key items ([] : List V)
  simpa [RMBytes.RegexMap.get, RMBytes.RegexSet.matches] using this

theorem matchesFrom_ge_byt (E : Engine (List Nat)) (key : List Nat) :
    ∀ (l : List String) (n i : Nat), i ∈ RMBytes.matchesFrom E key n l → n ≤ i
  | [], n, i, h => by simp [RMBytes.matchesFrom] at h
  | e :: rest, n, i, h => by
    simp only [RMBytes.matchesFrom] at h
    by_cases hm : E.isMatchOne e key = true
    · rw [if_pos hm] at h
      rcases List.mem_cons.mp h with rfl | h2
      · exact le_refl i
      · exact le_trans (Nat.le_succ n) (matchesFrom_ge_byt E key rest (n + 1) i h2)
    · rw [if_neg hm] at h
      exact le_trans (Nat.le_succ n) (matchesFrom_ge_byt E key rest (n + 1) i h)

theorem matchesFrom_lt_byt (E : Engine (List Nat)) (key : List Nat) :
    ∀ (l : List String) (n i : Nat), i ∈ RMBytes.matchesFrom E key n l → i < n + l.length
  | [], n, i, h => by simp [RMBytes.matchesFrom] at h
  | e :: rest, n, i, h => by
    simp only [RMBytes.matchesFrom] at h
    have hstep : i < n + 1 + rest.length → i < n + (e :: rest).length := by
      intro hx
      simpa [Nat.add_comm, Nat.add_left_comm, Nat.add_assoc] using hx
    by_cases hm : E.isMatchOne e key = true
    · rw [if_pos hm] at h
      rcases List.mem_cons.mp h with rfl | h2
      · simp [Nat.lt_succ_of_le, Nat.le_add_right]
      · exact hstep (matchesFrom_lt_byt E key rest (n + 1) i h2)
    · rw [if_neg hm] at h
      exact hstep (matchesFrom_lt_byt E key rest (n + 1) i h)

theorem matchesFrom_pairwise_byt (E : Engine (List Nat)) (key : List Nat) :
    ∀ (l : List String) (n : Nat), (RMBytes.matchesFrom E key n l).Pairwise (· < ·)
  | [], n => by simp [RMBytes.matchesFrom]
  | e :: rest, n => by
    simp only [RMBytes.matchesFrom]
    by_cases hm : E.isMatchOne e key = true
    · rw [if_pos hm]
      refine List.Pairwise.cons ?_ (matchesFrom_pairwise_byt E key rest (n + 1))
      intro i hi
      exact lt_of_lt_of_le (Nat.lt_succ_self n) (matchesFrom_ge_byt E key rest (n + 1) i hi)
    · rw [if_neg hm]
      exact matchesFrom_pairwise_byt E key rest (n + 1)

theorem is_match_any_byt {V : Type} {E : Engine (List Nat)} {items : List (String × V)}
    {m : RMBytes.RegexMap V} (key : List Nat)
    (h : RMBytes.RegexMap.new E items = Except.ok m) :
    m.contains_key E key = items.any fun it => E.isMatchOne it.1 key := by
  rw [new_ok_byt h]
  simp only [RMBytes.RegexMap.contains_key, RMBytes.RegexSet.is_match]
  exact any_map_fst (fun e => E.isMatchOne e key) items

/-! Claim theorems. -/

/-- C1: a container built by `RegexMap::new` from an ordered list of
(expression, value) pairs answers `get k` with exactly the values whose
pattern matches `k`, one value per matching pattern (matching is existential
per pattern, independent of how many positions match), in ascending order of
the original insertion index; the matcher reports the matching indices in
strictly ascending order. -/
theorem get_yields_matching_values_in_order {V : Type} (E : Engine String)
    (items : List (String × V)) (m : RMStr.RegexMap V) (key : String)
    (h : RMStr.RegexMap.new E items = Except.ok m) :
    m.get E key = ((items.filter fun it => E.isMatchOne it.1 key).map fun it => some it.2)
      ∧ (m.set.matches E key).Pairwise (· < ·) := by
  refine ⟨get_spec_str key h, ?_⟩
  rw [new_ok_str h]
  exact matchesFrom_pairwise_str E key (items.map Prod.fst) 0

/-- C1 witness: the doctest container looked up at "foobar" yields the
values of the matching patterns in insertion order, with ascending indices. -/
theorem get_yields_matching_values_in_order_witness :
    RMStr.RegexMap.get demoEngine demoMap "foobar"
        = ((demoItems.filter fun it => demoEngine.isMatchOne it.1 "foobar").map
            fun it => some it.2)
      ∧ (demoMap.set.matches demoEngine "foobar").Pairwise (· < ·) :=
  get_yields_matching_values_in_order demoEngine demoItems demoMap "foobar" (by rfl)

/-- C2: construction with any syntactically invalid pattern expression fails:
`new` produces an error rather than a container, and the error names an
invalid supplied expression as its cause; consequently construction can
succeed only when every expression compiles. -/
theorem new_invalid_pattern_fails {V : Type} (E : Engine String)
    (items : List (String × V)) (bad : String × V)
    (hmem : bad ∈ items) (hinv : E.isValid bad.1 = false) :
    ∃ err, RMStr.RegexMap.new E items = Except.error err
      ∧ E.isValid err = false ∧ err ∈ items.map Prod.fst := by
  rcases firstInvalid_of_invalid_mem E.isValid (items.map Prod.fst) bad.1
      (List.mem_map_of_mem Prod.fst hmem) hinv with ⟨b, hb, hbv⟩
  refine ⟨b, ?_, hbv, (firstInvalid_some_spec E.isValid (items.map Prod.fst) b hb).2⟩
  unfold RMStr.RegexMap.new RMStr.RegexSet.new
  rw [hb]

/-- C2 witness: constructing with the unbalanced pattern "(" fails and the
error carries that pattern. -/
theorem new_invalid_pattern_fails_witness :
    ∃ err, RMStr.RegexMap.new demoEngine [("(", 9)] = Except.error err
      ∧ demoEngine.isValid err = false
      ∧ err ∈ ([("(", 9)] : List (String × Nat)).map Prod.fst :=
  new_invalid_pattern_fails demoEngine [("(", 9)] ("(", 9) (by simp) (by decide)

/-- C3: membership is consistent with lookup: `contains_key k` is true iff
`get k` yields at least one element. -/
theorem contains_key_iff_get_nonempty {V : Type} (E : Engine String)
    (items : List (String × V)) (m : RMStr.RegexMap V) (key : String)
    (h : RMStr.RegexMap.new E items = Except.ok m) :
    m.contains_key E key = true ↔ m.get E key ≠ [] := by
  rw [is_match_any_str key h, get_spec_str key h]
  constructor
  · intro ha hnil
    rcases List.any_eq_true.mp ha with ⟨it, hmem, hit⟩
    have hf : it ∈ items.filter fun it => E.isMatchOne it.1 key :=
      List.mem_filter.mpr ⟨hmem, hit⟩
    have hsome := List.mem_map_of_mem (fun it => some it.2) hf
    rw [hnil] at hsome
    simp at hsome
  · intro hne
    by_contra hc
    have hfe : items.filter (fun it => E.isMatchOne it.1 key) = [] := by
      rw [List.filter_eq_nil]
      intro a ha hpa
      exact hc (List.any_eq_true.mpr ⟨a, ha, hpa⟩)
    exact hne (by rw [hfe]; rfl)

/-- C3 witness: the doctest container at key "bar" has a match, and indeed
the lookup sequence is non-empty. -/
theorem contains_key_iff_get_nonempty_witness :
    RMStr.RegexMap.contains_key demoEngine demoMap "bar" = true
      ↔ RMStr.RegexMap.get demoEngine demoMap "bar" ≠ [] :=
  contains_key_iff_get_nonempty demoEngine demoItems demoMap "bar" (by rfl)

/-- C4: the stored value list has exactly one value per supplied pair, and
the same length as the compiled pattern list; the invariant is established
at construction (and no operation mutates the container, see the C7
statelessness theorem). -/
theorem values_length_invariant {V : Type} (E : Engine String)
    (items : List (String × V)) (m : RMStr.RegexMap V)
    (h : RMStr.RegexMap.new E items = Except.ok m) :
    m.values.length = items.length ∧ m.values.length = m.set.patterns.length := by
  rw [new_ok_str h]
  simp

/-- C4 witness: the doctest container stores three values for three pairs
and three compiled patterns. -/
theorem values_length_invariant_witness :
    demoMap.values.length = demoItems.length
      ∧ demoMap.values.length = demoMap.set.patterns.length :=
  values_length_invariant demoEngine demoItems demoMap (by rfl)

/-- C5: lookups are total: every pattern index the matcher reports for any
key is within the bounds of the value list, so the `values[i]` lookup inside
`get` cannot fail, and every yielded element is an actual value. -/
theorem lookup_total_in_bounds {V : Type} (E : Engine String)
    (items : List (String × V)) (m : RMStr.RegexMap V) (key : String)
    (h : RMStr.RegexMap.new E items = Except.ok m) :
    ((m.set.matches E key).all fun i => i < m.values.length) = true
      ∧ ((m.get E key).all fun o => o.isSome) = true := by
  constructor
  · rw [new_ok_str h]
    simp only [List.all_eq_true]
    intro i hi
    have hlt := matchesFrom_lt_str E key (items.map Prod.fst) 0 i hi
    simpa using hlt
  · rw [get_spec_str key h]
    simp only [List.all_eq_true]
    intro o ho
    rcases List.mem_map.mp ho with ⟨it, _, rfl⟩
    rfl

/-- C5 witness: at the doctest container and key "foo", all reported indices
are in bounds and all yielded elements are values. -/
theorem lookup_total_in_bounds_witness :
    ((demoMap.set.matches demoEngine "foo").all fun i => i < demoMap.values.length) = true
      ∧ ((RMStr.RegexMap.get demoEngine demoMap "foo").all fun o => o.isSome) = true :=
  lookup_total_in_bounds demoEngine demoItems demoMap "foo" (by rfl)

/-- C6: a key matching zero patterns yields the empty sequence from `get`
and `false` from `contains_key`. -/
theorem no_match_yields_empty {V : Type} (E : Engine String)
    (items : List (String × V)) (m : RMStr.RegexMap V) (key : String)
    (h : RMStr.RegexMap.new E items = Except.ok m)
    (hnone : (items.all fun it => !E.isMatchOne it.1 key) = true) :
    m.get E key = [] ∧ m.contains_key E key = false := by
  have hfil : items.filter (fun it => E.isMatchOne it.1 key) = [] := by
    rw [List.filter_eq_nil]
    intro a ha
    have := List.all_eq_true.mp hnone a ha
    simpa using this
  constructor
  · rw [get_spec_str key h, hfil]
    rfl
  · rw [is_match_any_str key h]
    cases hb : items.any fun it => E.isMatchOne it.1 key with
    | false => rfl
    | true =>
      rcases List.any_eq_true.mp hb with ⟨it, hmem, hit⟩
      have hx := List.all_eq_true.mp hnone it hmem
      simp [hit] at hx

/-- C6 witness: the doctest container at the key "zzz" (which no pattern
matches) yields an empty sequence and a false membership test. -/
theorem no_match_yields_empty_witness :
    RMStr.RegexMap.get demoEngine demoMap "zzz" = []
      ∧ RMStr.RegexMap.contains_key demoEngine demoMap "zzz" = false :=
  no_match_yields_empty demoEngine demoItems demoMap "zzz" (by rfl) (by decide)

/-- C7: lookups are deterministic and mutate no container state: running any
sequence of `get` / `contains_key` operations produces, at every position,
exactly the output of that operation on the original container, and every
operation hands the container on unchanged — so repeated `get k` calls yield
identical, independently restartable sequences. -/
theorem lookups_stateless {V : Type} (E : Engine String) (m : RMStr.RegexMap V)
    (ops : List (RMStr.MapOp String)) :
    RMStr.RegexMap.runOps E m ops = ops.map (fun op => (m.step E op).2)
      ∧ ∀ op : RMStr.MapOp String, (m.step E op).1 = m := by
  constructor
  · induction ops with
    | nil => rfl
    | cons op rest ih =>
      cases op with
      | lookup k => simpa [RMStr.RegexMap.runOps, RMStr.RegexMap.step] using ih
      | member k => simpa [RMStr.RegexMap.runOps, RMStr.RegexMap.step] using ih
  · intro op
    cases op <;> rfl

/-- C9: constructing from the empty list of pairs succeeds, and the
resulting container answers every lookup with the empty sequence and every
membership test with false. -/
theorem empty_construction_empty_lookups (V : Type) (E : Engine String) (key : String) :
    RMStr.RegexMap.new E ([] : List (String × V)) = Except.ok ⟨⟨[]⟩, []⟩
      ∧ RMStr.RegexMap.get E ⟨⟨[]⟩, ([] : List V)⟩ key = []
      ∧ RMStr.RegexMap.contains_key E ⟨⟨[]⟩, ([] : List V)⟩ key = false :=
  ⟨rfl, rfl, rfl⟩

/-- C10: duplicate pattern expressions are permitted at construction: each
occurrence keeps its own index and value, and a key matched by the
duplicated expression receives one value per occurrence, in insertion
order. -/
theorem duplicate_patterns_each_contribute {V : Type} (E : Engine String)
    (pre mid suf : List (String × V)) (e : String) (v1 v2 : V) (key : String)
    (m : RMStr.RegexMap V)
    (h : RMStr.RegexMap.new E (pre ++ (e, v1) :: mid ++ (e, v2) :: suf) = Except.ok m)
    (hm : E.isMatchOne e key = true) :
    m.get E key
      = ((pre.filter fun it => E.isMatchOne it.1 key).map fun it => some it.2)
        ++ some v1 :: (((mid.filter fun it => E.isMatchOne it.1 key).map fun it => some it.2)
        ++ some v2 :: ((suf.filter fun it => E.isMatchOne it.1 key).map fun it => some it.2)) := by
  rw [get_spec_str key h]
  simp [List.filter_append, List.filter_cons, List.map_append, hm]

/-- C10 witness: with "bar" supplied twice (values 2 and 3), the key "bar"
receives both values, in insertion order. -/
theorem duplicate_patterns_each_contribute_witness :
    RMStr.RegexMap.get demoEngine dupMap "bar"
      = ((([("foo", 1)] : List (String × Nat)).filter
            fun it => demoEngine.isMatchOne it.1 "bar").map fun it => some it.2)
        ++ some 2 :: (((([] : List (String × Nat)).filter
            fun it => demoEngine.isMatchOne it.1 "bar").map fun it => some it.2)
        ++ some 3 :: ((([] : List (String × Nat)).filter
            fun it => demoEngine.isMatchOne it.1 "bar").map fun it => some it.2)) :=
  duplicate_patterns_each_contribute demoEngine [("foo", 1)] [] [] "bar" 2 3 "bar" dupMap
    (by rfl) (by decide)

/-- C8: the byte-keyed container satisfies the same contract as the
text-keyed one, with keys being arbitrary byte sequences: `get` yields the
values of the matching patterns in insertion order with strictly ascending
match indices, `contains_key` agrees with non-emptiness of `get`, the value
list keeps one value per supplied pair, every yielded element is an actual
value (no lookup-time error), and construction with any invalid expression
fails with a cause instead of producing a container. -/
theorem byte_variant_same_contract {V : Type} (E : Engine (List Nat))
    (items bad : List (String × V)) (m : RMBytes.RegexMap V) (key : List Nat)
    (b : String × V)
    (h : RMBytes.RegexMap.new E items = Except.ok m)
    (hbmem : b ∈ bad) (hbinv : E.isValid b.1 = false) :
    m.get E key = ((items.filter fun it => E.isMatchOne it.1 key).map fun it => some it.2)
      ∧ (m.set.matches E key).Pairwise (· < ·)
      ∧ (m.contains_key E key = true ↔ m.get E key ≠ [])
      ∧ m.values.length = items.length
      ∧ ((m.get E key).all fun o => o.isSome) = true
      ∧ ∃ err, RMBytes.RegexMap.new E bad = Except.error err ∧ E.isValid err = false := by
  refine ⟨get_spec_byt key h, ?_, ?_, ?_, ?_, ?_⟩
  · rw [new_ok_byt h]
    exact matchesFrom_pairwise_byt E key (items.map Prod.fst) 0
  · rw [is_match_any_byt key h, get_spec_byt key h]
    constructor
    · intro ha hnil
      rcases List.any_eq_true.mp ha with ⟨it, hmem, hit⟩
      have hf : it ∈ items.filter fun it => E.isMatchOne it.1 key :=
        List.mem_filter.mpr ⟨hmem, hit⟩
      have hsome := List.mem_map_of_mem (fun it => some it.2) hf
      rw [hnil] at hsome
      simp at hsome
    · intro hne
      by_contra hc
      have hfe : items.filter (fun it => E.isMatchOne it.1 key) = [] := by
        rw [List.filter_eq_nil]
        intro a ha hpa
        exact hc (List.any_eq_true.mpr ⟨a, ha, hpa⟩)
      exact hne (by rw [hfe]; rfl)
  · rw [new_ok_byt h]
    simp
  · rw [get_spec_byt key h]
    simp only [List.all_eq_true]
    intro o ho
    rcases List.mem_map.mp ho with ⟨it, _, rfl⟩
    rfl
  · rcases firstInvalid_of_invalid_mem E.isValid (bad.map Prod.fst) b.1
        (List.mem_map_of_mem Prod.fst hbmem) hbinv with ⟨c, hcfi, hcv⟩
    refine ⟨c, ?_, hcv⟩
    unfold RMBytes.RegexMap.new RMBytes.RegexSet.new
    rw [hcfi]

/-- C8 witness: the byte doctest container at the byte key "foo" satisfies
the whole contract, and constructing with the invalid byte pattern "(" fails
with that pattern as cause. -/
theorem byte_variant_same_contract_witness :
    RMBytes.RegexMap.get demoEngineB demoMapB fooKeyB
        = ((demoItemsB.filter fun it => demoEngineB.isMatchOne it.1 fooKeyB).map
            fun it => some it.2)
      ∧ (demoMapB.set.matches demoEngineB fooKeyB).Pairwise (· < ·)
      ∧ (RMBytes.RegexMap.contains_key demoEngineB demoMapB fooKeyB = true
          ↔ RMBytes.RegexMap.get demoEngineB demoMapB fooKeyB ≠ [])
      ∧ demoMapB.values.length = demoItemsB.length
      ∧ ((RMBytes.RegexMap.get demoEngineB demoMapB fooKeyB).all fun o => o.isSome) = true
      ∧ ∃ err, RMBytes.RegexMap.new demoEngineB [("(", 7)] = Except.error err
          ∧ demoEngineB.isValid err = false :=
  byte_variant_same_contract demoEngineB demoItemsB [("(", 7)] demoMapB fooKeyB ("(", 7)
    (by rfl) (by simp) (by decide)
